import Mathlib

/-!
Verification development for the pinewood-derby-scheduler library.

The definitions below are a shallow embedding of `src/index.ts`.
Racers are represented by their index `0 .. n-1` in the input list (the
source never inspects racer values; it only moves references around), and
the candidate score, computed in the source as
`weighted + heatsRemaining * 0.1` on IEEE doubles with integer `weighted`,
is embedded exactly as the integer `10 * weighted + heatsRemaining`.
Since every weighted score is an integer, comparisons of
`weighted + remaining / 10` agree with integer comparisons of
`10 * weighted + remaining` whenever the exact rational values differ,
which is the case at every comparison the algorithm performs on inputs
where `10 * weighted + remaining` values are distinct or equal as stated.
-/

namespace Pinewood

/-- Scheduling criteria that can be prioritized (`ScheduleCriterion`). -/
inductive ScheduleCriterion
  | lanes
  | opponents
  | turnover
deriving DecidableEq, Repr

open ScheduleCriterion

/-- The `prioritize` option: a single criterion string or an array. -/
inductive Prioritize
  | single : ScheduleCriterion → Prioritize
  | arr : List ScheduleCriterion → Prioritize
deriving DecidableEq, Repr

/-- Normalization of `prioritize` to an array, from the source:
`Array.isArray(prioritize) ? prioritize : prioritize === 'lanes' ?
['lanes','turnover','opponents'] : ['opponents','turnover','lanes']`. -/
def priorityList : Prioritize → List ScheduleCriterion
  | .arr cs => cs
  | .single .lanes => [lanes, turnover, opponents]
  | .single _ => [opponents, turnover, lanes]

/-- The per-criterion weight record. -/
structure Weights where
  lanes : Int
  opponents : Int
  turnover : Int
deriving DecidableEq, Repr

def setWeight (w : Weights) (c : ScheduleCriterion) (v : Int) : Weights :=
  match c with
  | .lanes => { w with lanes := v }
  | .opponents => { w with opponents := v }
  | .turnover => { w with turnover := v }

def weightValues : List Int := [1000, 100, 10]

def allCriteria : List ScheduleCriterion := [lanes, opponents, turnover]

/-- Weight assignment: `weights[priorityList[i]] = weightValues[i] ?? 1`
starting from all ones, then any criterion not in the list is (re)set
to 1. -/
def computeWeights (pl : List ScheduleCriterion) : Weights :=
  let w0 : Weights := { lanes := 1, opponents := 1, turnover := 1 }
  let w1 := pl.enum.foldl (fun w ic => setWeight w ic.2 (weightValues.getD ic.1 1)) w0
  allCriteria.foldl (fun w c => if c ∈ pl then w else setWeight w c 1) w1

/-- `getLanePriority` inner loop: outermost lanes first, moving inward.
Structural fuel makes the definition kernel-reducible; `fuel = n`
always suffices since each step shrinks the window by two. -/
def lanePriorityGo : Nat → Nat → Nat → List Nat
  | 0, _, _ => []
  | fuel + 1, left, right =>
    if left ≤ right then
      if left = right then [left]
      else left :: right :: lanePriorityGo fuel (left + 1) (right - 1)
    else []

/-- Lane indices in priority order: outermost (0, last), then inward. -/
def getLanePriority (n : Nat) : List Nat :=
  if n = 0 then [] else lanePriorityGo n 0 (n - 1)

/-- State of the BYE-placement while loop. -/
structure ByeState where
  byeSlots : List (Nat × Nat)
  leftByes : Nat
  rightByes : Nat
  heatIdx : Nat
  byesPlaced : Nat
deriving DecidableEq, Repr

/-- The edge preferred for the next BYE: the side with fewer BYEs so
far, ties broken by alternating on the number already placed. -/
def byeChooseEdge (L : Nat) (s : ByeState) : Nat :=
  if s.leftByes < s.rightByes then 0
  else if s.rightByes < s.leftByes then L - 1
  else if s.byesPlaced % 2 = 0 then 0 else L - 1

/-- Lane selected for the next BYE in the current heat: first try the
exact chosen edge lane, then fall back to the first free lane in
outermost-first order. -/
def byeFindLane (L : Nat) (s : ByeState) : Option Nat :=
  match (getLanePriority L).find? (fun idx => decide (idx = byeChooseEdge L s) &&
      decide ((s.heatIdx, idx) ∉ s.byeSlots)) with
  | some idx => some idx
  | none => (getLanePriority L).find? (fun idx => decide ((s.heatIdx, idx) ∉ s.byeSlots))

/-- One iteration of the BYE-placement while loop: place a BYE at the
selected lane (if any lane of the current heat is free), then step the
heat index backward with wraparound. -/
def byeStep (L H : Nat) (s : ByeState) : ByeState :=
  let s2 :=
    match byeFindLane L s with
    | some idx =>
      { s with
        byeSlots := (s.heatIdx, idx) :: s.byeSlots
        leftByes := s.leftByes + (if idx = 0 then 1 else 0)
        rightByes := s.rightByes + (if idx = L - 1 then 1 else 0)
        byesPlaced := s.byesPlaced + 1 }
    | none => s
  { s2 with heatIdx := if s2.heatIdx = 0 then H - 1 else s2.heatIdx - 1 }

/-- The BYE-placement while loop (`while (byesPlaced < necessaryByes)`),
run on explicit fuel; `byeRun` supplies fuel that is proved sufficient. -/
def byeLoop (L H B : Nat) : Nat → ByeState → ByeState
  | 0, s => s
  | fuel + 1, s => if s.byesPlaced < B then byeLoop L H B fuel (byeStep L H s) else s

def byeInit (H : Nat) : ByeState :=
  { byeSlots := [], leftByes := 0, rightByes := 0, heatIdx := H - 1, byesPlaced := 0 }

def byeRun (L H B : Nat) : ByeState :=
  byeLoop L H B (B * H + H) (byeInit H)

/-- Helper to check if a slot is a BYE. -/
def isByeSlot (byes : List (Nat × Nat)) (heat lane : Nat) : Bool :=
  decide ((heat, lane) ∈ byes)

/-- Normalized unordered pair key for the pairing ledger. -/
def pairKey (a b : Nat) : Nat × Nat :=
  if a < b then (a, b) else (b, a)

/-- Mutable state of the greedy assignment phase. -/
structure FillState where
  result : List (List (Option Nat))
  heatsRemaining : List Nat
  lanesUsed : List (List Nat)
  racedTogether : List (Nat × Nat)
  previousHeatRacers : List Nat
deriving DecidableEq, Repr

/-- Set-style insertion (the source uses JS `Set`s; only membership is
ever observed). -/
def insertOnce {α : Type} [DecidableEq α] (l : List α) (x : α) : List α :=
  if x ∈ l then l else x :: l

/-- Candidate score for one specific lane, scaled by 10:
`10 * (laneScore * w.lanes + opponentScore * w.opponents +
turnoverScore * w.turnover) + heatsRemaining[c]`, the exact-integer
form of the source's `weighted + heatsRemaining * 0.1`. -/
def score10 (w : Weights) (st : FillState) (rih : List Nat) (lane c : Nat) : Int :=
  let laneScore : Int := if lane ∈ st.lanesUsed.getD c [] then 0 else 10
  let newOpponents : Int := ((rih.filter (fun a => decide (pairKey c a ∉ st.racedTogether))).length : Int)
  let repeatOpponents : Int := ((rih.filter (fun a => decide (pairKey c a ∈ st.racedTogether))).length : Int)
  let opponentScore : Int := newOpponents * 2 - repeatOpponents * 5
  let turnoverScore : Int := if c ∈ st.previousHeatRacers then -1 else 1
  10 * (laneScore * w.lanes + opponentScore * w.opponents + turnoverScore * w.turnover)
    + (st.heatsRemaining.getD c 0 : Int)

/-- Selection loop over scored candidates: keep the first candidate whose
score is strictly greater than the best so far (the `candidate <
bestCandidate` tie branch of the source is included verbatim; candidates
are scanned in increasing index order). -/
def selectBest (scored : List (Nat × Int)) : Option Nat :=
  (scored.foldl
    (fun best p =>
      match best with
      | none => some p
      | some q => if p.2 > q.2 ∨ (p.2 = q.2 ∧ p.1 < q.1) then some p else some q)
    none).map Prod.fst

/-- Fill the lanes of one heat in the given order; stops early when the
candidate set is empty (`if (candidates.length === 0) break`). Returns
the updated state and the racers placed in this heat. -/
def fillLanes (n : Nat) (w : Weights) (heat : Nat) :
    List Nat → FillState → List Nat → FillState × List Nat
  | [], st, rih => (st, rih)
  | lane :: rest, st, rih =>
    let candidates := (List.range n).filter
      (fun r => decide (0 < st.heatsRemaining.getD r 0) && decide (r ∉ rih))
    if candidates.isEmpty then (st, rih)
    else
      match selectBest (candidates.map (fun c => (c, score10 w st rih lane c))) with
      | none => (st, rih)
      | some best =>
        let st2 :=
          { st with
            result := st.result.set heat ((st.result.getD heat []).set lane (some best))
            heatsRemaining := st.heatsRemaining.set best (st.heatsRemaining.getD best 0 - 1)
            lanesUsed := st.lanesUsed.set best (insertOnce (st.lanesUsed.getD best []) lane) }
        fillLanes n w heat rest st2 (rih ++ [best])

/-- Record every unordered pair of racers that shared this heat. -/
def recordPairs : List (Nat × Nat) → List Nat → List (Nat × Nat)
  | rt, [] => rt
  | rt, a :: rest => recordPairs (rest.foldl (fun acc b => insertOnce acc (pairKey a b)) rt) rest

/-- Rotation of the lane fill order (`heat % lanesInHeat.length` shifts). -/
def rotate {α : Type} (l : List α) (k : Nat) : List α :=
  l.drop k ++ l.take k

/-- Process one heat: compute available (non-BYE) lanes, rotate the fill
order, fill lane by lane, then record pairings and the previous-heat set. -/
def processHeat (n L : Nat) (w : Weights) (byes : List (Nat × Nat))
    (st : FillState) (heat : Nat) : FillState :=
  let lanesInHeat := (List.range L).filter (fun l => !isByeSlot byes heat l)
  let laneOrder := rotate lanesInHeat (heat % lanesInHeat.length)
  let out := fillLanes n w heat laneOrder st []
  { out.1 with
    racedTogether := recordPairs out.1.racedTogether out.2
    previousHeatRacers := out.2 }

/-- The core scheduling algorithm on validated inputs, with racers
represented by index. -/
def scheduleCore (n L hpr : Nat) (pl : List ScheduleCriterion) :
    List (List (Option Nat)) :=
  let w := computeWeights pl
  let totalSlots := n * hpr
  let numHeats := max hpr ((totalSlots + L - 1) / L)
  let necessaryByes := numHeats * L - totalSlots
  let byes := (byeRun L numHeats necessaryByes).byeSlots
  let init : FillState :=
    { result := List.replicate numHeats (List.replicate L none)
      heatsRemaining := List.replicate n hpr
      lanesUsed := List.replicate n []
      racedTogether := []
      previousHeatRacers := [] }
  ((List.range numHeats).foldl (processHeat n L w byes) init).result

/-- Total number of slots holding racer `r` over the whole grid. -/
def countRacer (grid : List (List (Option Nat))) (r : Nat) : Nat :=
  (grid.map (fun row => row.count (some r))).sum

/-- Total number of empty (`null`) slots over the whole grid. -/
def countNone (grid : List (List (Option Nat))) : Nat :=
  (grid.map (fun row => row.count none)).sum

/-- The options record of the public `schedule` entry point. JS numbers
are embedded as rationals so that the `Number.isInteger` validation is
expressible. -/
structure ScheduleOptions where
  numLanes : Rat
  heatsPerRacer : Rat
  prioritize : Option Prioritize
deriving DecidableEq, Repr

/-- `Number.isInteger(x) && x >= 1`, the validation test both numeric
options must pass. -/
def isPositiveInteger (q : Rat) : Bool :=
  decide (q.den = 1 ∧ 1 ≤ q.num)

/-- The public `schedule` entry point. A `none` racers argument embeds a
non-array JS value (`Array.isArray` fails); all four validation errors
are raised in source order, and the racer-index grid of `scheduleCore`
is mapped back to the caller's racer values. -/
def schedule {T : Type} (racers : Option (List T)) (opts : ScheduleOptions) :
    Except String (List (List (Option T))) :=
  match racers with
  | none => .error "racers must be an array"
  | some rs =>
    if rs.length = 0 then .error "racers array cannot be empty"
    else if !isPositiveInteger opts.numLanes then
      .error "numLanes must be a positive integer"
    else if !isPositiveInteger opts.heatsPerRacer then
      .error "heatsPerRacer must be a positive integer"
    else
      let pl := priorityList ((opts.prioritize).getD (.arr [lanes, turnover, opponents]))
      let L := opts.numLanes.num.toNat
      let hpr := opts.heatsPerRacer.num.toNat
      .ok ((scheduleCore rs.length L hpr pl).map
        (fun row => row.map (fun s => s.bind (fun i => rs.get? i))))

/-- Number of BYE coordinates recorded for a given heat. -/
def byeCount (slots : List (Nat × Nat)) (h : Nat) : Nat :=
  (slots.filter (fun p => decide (p.1 = h))).length

/-- Invariant of the BYE-placement loop after `t` placements: `t`
distinct in-grid coordinates are recorded, the heat index cycles
backward from the last heat, and the per-heat BYE counts are as even as
possible with the extra BYEs in the later heats. -/
structure ByeInv (L H t : Nat) (s : ByeState) : Prop where
  placed : s.byesPlaced = t
  len : s.byeSlots.length = t
  nodup : s.byeSlots.Nodup
  inGrid : ∀ p ∈ s.byeSlots, p.1 < H ∧ p.2 < L
  idx : s.heatIdx = H - 1 - t % H
  cnt : ∀ h, h < H → byeCount s.byeSlots h = t / H + (if H - t % H ≤ h then 1 else 0)

/-! ## Helper lemmas -/

lemma foldl_choice_mem {α : Type} (f : Option α → α → Option α)
    (hf : ∀ acc a, f acc a = acc ∨ f acc a = some a) :
    ∀ (l : List α) (acc : Option α) (q : α), l.foldl f acc = some q → acc = some q ∨ q ∈ l := by
  intro l
  induction l with
  | nil => exact fun acc q h => Or.inl h
  | cons a t ih =>
    intro acc q h
    rw [List.foldl_cons] at h
    rcases ih (f acc a) q h with h2 | h2
    · rcases hf acc a with h3 | h3
      · exact Or.inl (h3 ▸ h2)
      · rw [h3] at h2
        simp only [Option.some.injEq] at h2
        exact Or.inr (h2 ▸ List.mem_cons_self a t)
    · exact Or.inr (List.mem_cons_of_mem _ h2)

lemma selectBest_mem (l : List (Nat × Int)) (c : Nat) (h : selectBest l = some c) :
    ∃ s, (c, s) ∈ l := by
  unfold selectBest at h
  rcases Option.map_eq_some'.1 h with ⟨q, hq, hq2⟩
  have step : ∀ (best : Option (Nat × Int)) (p : Nat × Int),
      (match best with
        | none => some p
        | some q2 => if p.2 > q2.2 ∨ (p.2 = q2.2 ∧ p.1 < q2.1) then some p else some q2) = best ∨
      (match best with
        | none => some p
        | some q2 => if p.2 > q2.2 ∨ (p.2 = q2.2 ∧ p.1 < q2.1) then some p else some q2) = some p := by
    intro best p
    cases best with
    | none => exact Or.inr rfl
    | some q2 =>
      by_cases hcond : p.2 > q2.2 ∨ (p.2 = q2.2 ∧ p.1 < q2.1)
      · simp [hcond]
      · simp [hcond]
  rcases foldl_choice_mem _ step l none q hq with h3 | h3
  · exact absurd h3 (by simp)
  · exact ⟨q.2, by rw [← hq2]; simpa using h3⟩

lemma count_set_le {α : Type} [BEq α] [LawfulBEq α] (l : List α) (i : Nat) (a b : α) :
    (l.set i a).count b ≤ l.count b + 1 := by
  induction l generalizing i with
  | nil => simp
  | cons x t ih =>
    cases i with
    | zero =>
      simp only [List.set_cons_zero, List.count_cons]
      split <;> split <;> omega
    | succ j =>
      simp only [List.set_cons_succ, List.count_cons]
      have := ih j
      omega

lemma count_set_ne {α : Type} [BEq α] [LawfulBEq α] (l : List α) (i : Nat) (a b : α) (h : b ≠ a) :
    (l.set i a).count b ≤ l.count b := by
  induction l generalizing i with
  | nil => simp
  | cons x t ih =>
    cases i with
    | zero =>
      simp only [List.set_cons_zero, List.count_cons]
      rw [if_neg (show ¬(a == b) = true from fun h2 => h (eq_of_beq h2).symm)]
      split <;> omega
    | succ j =>
      simp only [List.set_cons_succ, List.count_cons]
      have := ih j
      omega

lemma fillLanes_result_length (n : Nat) (w : Weights) (heat : Nat) :
    ∀ (lanes : List Nat) (st : FillState) (rih : List Nat),
      (fillLanes n w heat lanes st rih).1.result.length = st.result.length := by
  intro lanes
  induction lanes with
  | nil => intro st rih; rfl
  | cons lane rest ih =>
    intro st rih
    show (fillLanes n w heat (lane :: rest) st rih).1.result.length = st.result.length
    rw [fillLanes]
    split
    · rfl
    · split
      · rfl
      · rw [ih]
        simp

lemma fillLanes_frame (n : Nat) (w : Weights) (heat : Nat) :
    ∀ (lanes : List Nat) (st : FillState) (rih : List Nat) (j : Nat), j ≠ heat →
      (fillLanes n w heat lanes st rih).1.result.getD j [] = st.result.getD j [] := by
  intro lanes
  induction lanes with
  | nil => intro st rih j hj; rfl
  | cons lane rest ih =>
    intro st rih j hj
    rw [fillLanes]
    split
    · rfl
    · split
      · rfl
      · rw [ih _ _ _ hj]
        simp [List.getD_eq_getElem?_getD, List.getElem?_set_ne (Ne.symm hj)]

lemma fillLanes_rows (n : Nat) (w : Weights) (heat L : Nat) :
    ∀ (lanes : List Nat) (st : FillState) (rih : List Nat),
      heat < st.result.length → (∀ row ∈ st.result, row.length = L) →
      ∀ row ∈ (fillLanes n w heat lanes st rih).1.result, row.length = L := by
  intro lanes
  induction lanes with
  | nil => intro st rih hh hrows; exact hrows
  | cons lane rest ih =>
    intro st rih hh hrows
    rw [fillLanes]
    split
    · exact hrows
    · split
      · exact hrows
      · refine ih _ _ (by simpa using hh) ?_
        intro row hrow
        rcases List.mem_or_eq_of_mem_set hrow with h2 | h2
        · exact hrows row h2
        · subst h2
          rw [List.length_set]
          have : st.result.getD heat [] = st.result[heat] := by
            simp [List.getD_eq_getElem?_getD, List.getElem?_eq_getElem hh]
          rw [this]
          exact hrows _ (List.getElem_mem hh)

lemma fillLanes_best_not_mem (n : Nat) (rih : List Nat) (st : FillState) (best : Nat)
    (cands : List Nat)
    (hc : cands = (List.range n).filter
      (fun r => decide (0 < st.heatsRemaining.getD r 0) && decide (r ∉ rih)))
    (hmem : best ∈ cands) : best ∉ rih := by
  subst hc
  have := (List.mem_filter.1 hmem).2
  simp only [Bool.and_eq_true, decide_eq_true_eq] at this
  exact this.2

lemma fillLanes_count (n : Nat) (w : Weights) (heat : Nat) :
    ∀ (lanes : List Nat) (st : FillState) (rih : List Nat),
      (∀ r, (st.result.getD heat []).count (some r) ≤ (if r ∈ rih then 1 else 0)) →
      ∀ r, ((fillLanes n w heat lanes st rih).1.result.getD heat []).count (some r) ≤
        (if r ∈ (fillLanes n w heat lanes st rih).2 then 1 else 0) := by
  intro lanes
  induction lanes with
  | nil => intro st rih hinv; exact hinv
  | cons lane rest ih =>
    intro st rih hinv
    rw [fillLanes]
    split
    · exact hinv
    · split
      · exact hinv
      · rename_i hne best hbest
        refine ih _ _ ?_
        intro r
        have hbmem : best ∉ rih := by
          rcases selectBest_mem _ _ hbest with ⟨s, hs⟩
          rcases List.mem_map.1 hs with ⟨c0, hc0, hc0eq⟩
          have : c0 = best := congrArg Prod.fst hc0eq
          subst this
          exact fillLanes_best_not_mem n rih st c0 _ rfl hc0
        by_cases hh : heat < st.result.length
        · have hrow : (st.result.set heat
              ((st.result.getD heat []).set lane (some best))).getD heat [] =
              (st.result.getD heat []).set lane (some best) := by
            simp [List.getD_eq_getElem?_getD, List.getElem?_set, hh]
          simp only [hrow]
          by_cases hr : r = best
          · subst hr
            have h1 := count_set_le (st.result.getD heat []) lane (some r) (some r)
            have h2 := hinv r
            rw [if_neg hbmem] at h2
            rw [if_pos (by simp : r ∈ rih ++ [r])]
            omega
          · have h1 := count_set_ne (st.result.getD heat []) lane (some best) (some r)
              (by simp [hr])
            have h2 := hinv r
            by_cases hrr : r ∈ rih
            · rw [if_pos (show r ∈ rih ++ [best] by simp [hrr])]
              rw [if_pos hrr] at h2
              omega
            · rw [if_neg (show ¬r ∈ rih ++ [best] by simp [hrr, hr])]
              rw [if_neg hrr] at h2
              omega
        · have hrow : (st.result.set heat
              ((st.result.getD heat []).set lane (some best))).getD heat [] =
              st.result.getD heat [] := by
            have h3 : st.result.set heat ((st.result.getD heat []).set lane (some best)) =
                st.result := List.set_eq_of_length_le (by omega)
            rw [h3]
          simp only [hrow]
          have h2 := hinv r
          by_cases hrr : r ∈ rih
          · rw [if_pos (show r ∈ rih ++ [best] by simp [hrr])]
            rw [if_pos hrr] at h2
            omega
          · rw [if_neg hrr] at h2
            split <;> omega

lemma processHeat_length (n L : Nat) (w : Weights) (byes : List (Nat × Nat))
    (st : FillState) (heat : Nat) :
    (processHeat n L w byes st heat).result.length = st.result.length := by
  unfold processHeat
  exact fillLanes_result_length n w heat _ st []

lemma processHeat_frame (n L : Nat) (w : Weights) (byes : List (Nat × Nat))
    (st : FillState) (heat j : Nat) (hj : j ≠ heat) :
    (processHeat n L w byes st heat).result.getD j [] = st.result.getD j [] := by
  unfold processHeat
  exact fillLanes_frame n w heat _ st [] j hj

lemma processHeat_rows (n L : Nat) (w : Weights) (byes : List (Nat × Nat))
    (st : FillState) (heat : Nat) (hh : heat < st.result.length)
    (hrows : ∀ row ∈ st.result, row.length = L) :
    ∀ row ∈ (processHeat n L w byes st heat).result, row.length = L := by
  unfold processHeat
  exact fillLanes_rows n w heat L _ st [] hh hrows

lemma processHeat_result_eq (n L : Nat) (w : Weights) (byes : List (Nat × Nat))
    (st : FillState) (heat : Nat) :
    (processHeat n L w byes st heat).result =
      (fillLanes n w heat
        (rotate ((List.range L).filter (fun l => !isByeSlot byes heat l))
          (heat % ((List.range L).filter (fun l => !isByeSlot byes heat l)).length))
        st []).1.result := rfl

lemma processHeat_count (n L : Nat) (w : Weights) (byes : List (Nat × Nat))
    (st : FillState) (heat : Nat)
    (hstart : ∀ r, (st.result.getD heat []).count (some r) = 0) :
    ∀ r, ((processHeat n L w byes st heat).result.getD heat []).count (some r) ≤ 1 := by
  intro r
  rw [processHeat_result_eq]
  have h0 : ∀ r2, (st.result.getD heat []).count (some r2) ≤
      (if r2 ∈ ([] : List Nat) then 1 else 0) := by
    intro r2
    rw [hstart r2]
    simp
  have h := fillLanes_count n w heat
    (rotate ((List.range L).filter (fun l => !isByeSlot byes heat l))
      (heat % ((List.range L).filter (fun l => !isByeSlot byes heat l)).length))
    st [] h0 r
  refine le_trans h ?_
  split <;> omega

lemma foldl_processHeat_inv (n L : Nat) (w : Weights) (byes : List (Nat × Nat)) (H : Nat) :
    ∀ (l : List Nat) (st : FillState),
      l.Nodup →
      st.result.length = H →
      (∀ row ∈ st.result, row.length = L) →
      (∀ j ∈ l, j < H) →
      (∀ j ∈ l, ∀ r, (st.result.getD j []).count (some r) = 0) →
      (∀ j r, (st.result.getD j []).count (some r) ≤ 1) →
      (l.foldl (processHeat n L w byes) st).result.length = H ∧
      (∀ row ∈ (l.foldl (processHeat n L w byes) st).result, row.length = L) ∧
      (∀ j r, ((l.foldl (processHeat n L w byes) st).result.getD j []).count (some r) ≤ 1) := by
  intro l
  induction l with
  | nil => exact fun st _ h1 h2 _ _ h5 => ⟨h1, h2, h5⟩
  | cons k rest ih =>
    intro st hnd hlen hrows hlt hzero hone
    rw [List.foldl_cons]
    have hk : k < H := hlt k (List.mem_cons_self k rest)
    have hndr := (List.nodup_cons.1 hnd).2
    have hknr : k ∉ rest := (List.nodup_cons.1 hnd).1
    refine ih (processHeat n L w byes st k) hndr ?_ ?_ ?_ ?_ ?_
    · rw [processHeat_length]; exact hlen
    · exact processHeat_rows n L w byes st k (by omega) hrows
    · exact fun j hj => hlt j (List.mem_cons_of_mem _ hj)
    · intro j hj r
      rw [processHeat_frame n L w byes st k j (fun he => hknr (he ▸ hj))]
      exact hzero j (List.mem_cons_of_mem _ hj) r
    · intro j r
      by_cases hjk : j = k
      · subst hjk
        exact processHeat_count n L w byes st j
          (fun r2 => hzero j (List.mem_cons_self j rest) r2) r
      · rw [processHeat_frame n L w byes st k j hjk]
        exact hone j r

lemma scheduleCore_invariants (n L hpr : Nat) (pl : List ScheduleCriterion) :
    (scheduleCore n L hpr pl).length = max hpr ((n * hpr + L - 1) / L) ∧
    (∀ row ∈ scheduleCore n L hpr pl, row.length = L) ∧
    (∀ j r, ((scheduleCore n L hpr pl).getD j []).count (some r) ≤ 1) := by
  unfold scheduleCore
  refine foldl_processHeat_inv n L (computeWeights pl) _ _ (List.range _) _
    (List.nodup_range _) (by simp) ?_ (fun j hj => List.mem_range.1 hj) ?_ ?_
  · intro row hrow
    rw [List.eq_of_mem_replicate hrow]
    simp
  · intro j hj r
    rw [List.getD_eq_getElem?_getD]
    rw [List.getElem?_replicate]
    split
    · simp [List.count_replicate]
    · simp
  · intro j r
    rw [List.getD_eq_getElem?_getD]
    rw [List.getElem?_replicate]
    split
    · simp [List.count_replicate]
    · simp

/-! ## Claim theorems -/

/-- C2: for every input (n racers, L lanes, hpr heats per racer, any
priority list) and every heat of the grid returned by the core scheduling
algorithm, no racer index occupies more than one lane of that heat. -/
theorem c2_no_duplicate_in_heat (n L hpr : Nat) (pl : List ScheduleCriterion) (h r : Nat) :
    (((scheduleCore n L hpr pl).getD h []).count (some r)) ≤ 1 :=
  (scheduleCore_invariants n L hpr pl).2.2 h r

/-- C4: for every input, the returned grid has exactly
`max hpr ⌈n * hpr / L⌉` heats and every heat is a sequence of exactly
`L` lanes. -/
theorem c4_grid_dimensions (n L hpr : Nat) (pl : List ScheduleCriterion) :
    (scheduleCore n L hpr pl).length = max hpr ((n * hpr) ⌈/⌉ L) ∧
    ∀ row ∈ scheduleCore n L hpr pl, row.length = L := by
  rw [Nat.ceilDiv_eq_add_pred_div]
  exact ⟨(scheduleCore_invariants n L hpr pl).1, (scheduleCore_invariants n L hpr pl).2.1⟩

set_option maxRecDepth 40000 in
/-- C1 is refuted by the code: at the failing input of 8 racers, 7 lanes,
8 heats per racer and single-tag priority `opponents` (which normalizes
to `[opponents, turnover, lanes]`), racer 7 appears in only 7 slots of
the returned grid instead of `heatsPerRacer = 8`. -/
theorem c1_appearance_count_fails :
    countRacer (scheduleCore 8 7 8 (priorityList (.single .opponents))) 7 = 7 := by
  decide

set_option maxRecDepth 40000 in
/-- C3 is refuted by the code: at the same failing input the grid has 7
empty slots while `numHeats * numLanes - n * hpr = 10 * 7 - 64 = 6` BYEs
were intended, so one non-BYE slot was left unfilled because the
candidate set became empty. -/
theorem c3_unfilled_slot_exists :
    countNone (scheduleCore 8 7 8 (priorityList (.single .opponents))) = 7 ∧
    (max 8 ((8 * 8 + 7 - 1) / 7)) * 7 - 8 * 8 = 6 := by
  constructor
  · decide
  · decide

/-- C6: the schedule function is deterministic; two calls on equal
racers, options and priority specification return equal grids. -/
theorem c6_deterministic {T : Type} (racers1 racers2 : Option (List T))
    (opts1 opts2 : ScheduleOptions) (hr : racers1 = racers2) (ho : opts1 = opts2) :
    schedule racers1 opts1 = schedule racers2 opts2 := by
  rw [hr, ho]

/-- Witness for C6 at a concrete input. -/
theorem c6_deterministic_witness :
    schedule (T := Nat) (some [1, 2])
      { numLanes := 2, heatsPerRacer := 1, prioritize := none } =
    schedule (T := Nat) (some [1, 2])
      { numLanes := 2, heatsPerRacer := 1, prioritize := none } :=
  c6_deterministic _ _ _ _ rfl rfl

/-- C7 as stated is false: with 3 racers, 2 lanes and 2 heats per racer,
the single tag `opponents` gives a different grid than the explicit
ordered list `[opponents, lanes, turnover]` (the code expands the single
tag to `[opponents, turnover, lanes]` instead). -/
theorem c7_single_tag_list_mismatch :
    schedule (T := Nat) (some [0, 1, 2])
      { numLanes := 2, heatsPerRacer := 2, prioritize := some (.single .opponents) } =
      .ok [[some 0, some 1], [some 1, some 2], [some 0, some 2]] ∧
    schedule (T := Nat) (some [0, 1, 2])
      { numLanes := 2, heatsPerRacer := 2,
        prioritize := some (.arr [opponents, lanes, turnover]) } =
      .ok [[some 0, some 1], [some 1, some 2], [some 2, some 0]] ∧
    ([[some 0, some 1], [some 1, some 2], [some 0, some 2]] :
        List (List (Option Nat))) ≠
      [[some 0, some 1], [some 1, some 2], [some 2, some 0]] :=
  ⟨rfl, rfl, by decide⟩

/-- C7 amended: the single tag `lanes` produces the same grid as the
explicit list `[lanes, turnover, opponents]`, and the single tag
`opponents` the same grid as `[opponents, turnover, lanes]` (the
expansions the code actually uses). -/
theorem c7_single_tag_actual_expansion {T : Type} (racers : Option (List T))
    (nl h : Rat) :
    schedule racers { numLanes := nl, heatsPerRacer := h,
                      prioritize := some (.single .lanes) } =
      schedule racers { numLanes := nl, heatsPerRacer := h,
                        prioritize := some (.arr [lanes, turnover, opponents]) } ∧
    schedule racers { numLanes := nl, heatsPerRacer := h,
                      prioritize := some (.single .opponents) } =
      schedule racers { numLanes := nl, heatsPerRacer := h,
                        prioritize := some (.arr [opponents, turnover, lanes]) } :=
  ⟨rfl, rfl⟩

/-- C9: a single-tag priority of `lanes` expands to
`[lanes, turnover, opponents]`, and every other single tag — including
`turnover` — expands to `[opponents, turnover, lanes]`, so the single
tag `turnover` gives the opponents criterion weight 1000 and the
turnover criterion weight 100 (and lanes weight 10). -/
theorem c9_single_tag_expansion (c : ScheduleCriterion) (hc : c ≠ lanes) :
    priorityList (.single .lanes) = [lanes, turnover, opponents] ∧
    priorityList (.single c) = [opponents, turnover, lanes] ∧
    computeWeights (priorityList (.single .turnover)) =
      { lanes := 10, opponents := 1000, turnover := 100 } := by
  refine ⟨rfl, ?_, by decide⟩
  cases c with
  | lanes => exact absurd rfl hc
  | opponents => rfl
  | turnover => rfl

/-- Witness for C9 at the concrete tag `turnover`. -/
theorem c9_single_tag_expansion_witness :
    priorityList (.single .lanes) = [lanes, turnover, opponents] ∧
    priorityList (.single .turnover) = [opponents, turnover, lanes] ∧
    computeWeights (priorityList (.single .turnover)) =
      { lanes := 10, opponents := 1000, turnover := 100 } :=
  c9_single_tag_expansion .turnover (by decide)

lemma lanePriorityGo_mem :
    ∀ (fuel left right k : Nat), left ≤ k → k ≤ right → right + 1 - left ≤ fuel →
      k ∈ lanePriorityGo fuel left right := by
  intro fuel
  induction fuel with
  | zero => intro left right k h1 h2 h3; omega
  | succ f ih =>
    intro left right k h1 h2 h3
    rw [lanePriorityGo]
    rw [if_pos (by omega : left ≤ right)]
    by_cases he : left = right
    · rw [if_pos he]
      have : k = left := by omega
      simp [this]
    · rw [if_neg he]
      by_cases hk1 : k = left
      · simp [hk1]
      · by_cases hk2 : k = right
        · simp [hk2]
        · have hm := ih (left + 1) (right - 1) k (by omega) (by omega) (by omega)
          simp [hm]

lemma lanePriorityGo_bounds :
    ∀ (fuel left right k : Nat), k ∈ lanePriorityGo fuel left right →
      left ≤ k ∧ k ≤ right := by
  intro fuel
  induction fuel with
  | zero => intro left right k h; simp [lanePriorityGo] at h
  | succ f ih =>
    intro left right k h
    rw [lanePriorityGo] at h
    by_cases h1 : left ≤ right
    · rw [if_pos h1] at h
      by_cases h2 : left = right
      · rw [if_pos h2] at h
        simp at h
        omega
      · rw [if_neg h2] at h
        simp only [List.mem_cons] at h
        rcases h with h | h | h
        · omega
        · omega
        · have := ih _ _ _ h
          omega
    · rw [if_neg h1] at h
      simp at h

lemma getLanePriority_mem (L k : Nat) (hk : k < L) : k ∈ getLanePriority L := by
  unfold getLanePriority
  rw [if_neg (by omega : ¬L = 0)]
  exact lanePriorityGo_mem L 0 (L - 1) k (Nat.zero_le k) (by omega) (by omega)

lemma getLanePriority_bounds (L k : Nat) (h : k ∈ getLanePriority L) : k < L := by
  unfold getLanePriority at h
  by_cases h0 : L = 0
  · rw [if_pos h0] at h
    simp at h
  · rw [if_neg h0] at h
    have := lanePriorityGo_bounds L 0 (L - 1) k h
    omega

lemma exists_free_lane (slots : List (Nat × Nat)) (hIdx L : Nat)
    (hcnt : byeCount slots hIdx < L) :
    ∃ lane, lane < L ∧ (hIdx, lane) ∉ slots := by
  by_contra hcon
  push_neg at hcon
  have hsub : ((List.range L).map (fun l => (hIdx, l))) ⊆
      slots.filter (fun p => decide (p.1 = hIdx)) := by
    intro p hp
    rcases List.mem_map.1 hp with ⟨l, hl, rfl⟩
    rw [List.mem_filter]
    exact ⟨hcon l (List.mem_range.1 hl), by simp⟩
  have hinj : Function.Injective (fun l => ((hIdx, l) : Nat × Nat)) := by
    intro a b hab
    simpa using hab
  have hnd : ((List.range L).map (fun l => (hIdx, l))).Nodup :=
    (List.nodup_range L).map hinj
  have hle := (hnd.subperm hsub).length_le
  rw [List.length_map, List.length_range] at hle
  unfold byeCount at hcnt
  omega

lemma byeFindLane_some (L : Nat) (s : ByeState)
    (hfree : ∃ lane, lane < L ∧ (s.heatIdx, lane) ∉ s.byeSlots) :
    ∃ idx, byeFindLane L s = some idx ∧ idx < L ∧ (s.heatIdx, idx) ∉ s.byeSlots := by
  obtain ⟨lane0, h0L, h0free⟩ := hfree
  unfold byeFindLane
  cases h1 : (getLanePriority L).find? (fun idx => decide (idx = byeChooseEdge L s) &&
      decide ((s.heatIdx, idx) ∉ s.byeSlots)) with
  | some idx =>
    have hp := List.find?_some h1
    simp only [Bool.and_eq_true, decide_eq_true_eq] at hp
    exact ⟨idx, rfl, getLanePriority_bounds L idx (List.mem_of_find?_eq_some h1), hp.2⟩
  | none =>
    cases h2 : (getLanePriority L).find? (fun idx => decide ((s.heatIdx, idx) ∉ s.byeSlots)) with
    | some idx =>
      have hp := List.find?_some h2
      simp only [decide_eq_true_eq] at hp
      exact ⟨idx, rfl, getLanePriority_bounds L idx (List.mem_of_find?_eq_some h2), hp⟩
    | none =>
      exfalso
      have := List.find?_eq_none.1 h2 lane0 (getLanePriority_mem L lane0 h0L)
      simp only [decide_eq_true_eq] at this
      exact this h0free

lemma succ_mod_div (t H : Nat) (hH : 1 ≤ H) :
    ((t % H = H - 1) → (t + 1) % H = 0 ∧ (t + 1) / H = t / H + 1) ∧
    ((t % H < H - 1) → (t + 1) % H = t % H + 1 ∧ (t + 1) / H = t / H) := by
  constructor
  · intro hm
    have hmod0 : (t + 1) % H = 0 := by
      rw [Nat.add_mod]
      by_cases h1 : H = 1
      · subst h1; simp [Nat.mod_one]
      · rw [Nat.mod_eq_of_lt (show 1 < H by omega), hm]
        have h2 : H - 1 + 1 = H := by omega
        rw [h2, Nat.mod_self]
    refine ⟨hmod0, ?_⟩
    rw [Nat.succ_div]
    rw [if_pos (Nat.dvd_iff_mod_eq_zero.2 hmod0)]
  · intro hm
    have hmod1 : (t + 1) % H = t % H + 1 := by
      rw [Nat.add_mod]
      have h2 : 1 < H := by omega
      rw [Nat.mod_eq_of_lt h2]
      exact Nat.mod_eq_of_lt (by omega)
    refine ⟨hmod1, ?_⟩
    rw [Nat.succ_div]
    rw [if_neg ?_]
    · simp
    · intro hdvd
      have h3 := Nat.dvd_iff_mod_eq_zero.1 hdvd
      omega

lemma byeCount_cons (a b h : Nat) (slots : List (Nat × Nat)) :
    byeCount ((a, b) :: slots) h = byeCount slots h + (if a = h then 1 else 0) := by
  unfold byeCount
  rw [List.filter_cons]
  by_cases hah : a = h
  · simp [hah]
  · simp [hah]

lemma byeStep_inv (L H t : Nat) (s : ByeState) (hH : 1 ≤ H)
    (hdiv : t / H < L) (inv : ByeInv L H t s) :
    ByeInv L H (t + 1) (byeStep L H s) := by
  have hmod : t % H < H := Nat.mod_lt t hH
  have hidxH : s.heatIdx < H := by rw [inv.idx]; omega
  have hcm : byeCount s.byeSlots s.heatIdx = t / H := by
    have h2 := inv.cnt s.heatIdx hidxH
    rw [if_neg (by rw [inv.idx]; omega : ¬(H - t % H ≤ s.heatIdx))] at h2
    omega
  obtain ⟨idx, hfl, hidxL, hfree2⟩ :=
    byeFindLane_some L s (exists_free_lane s.byeSlots s.heatIdx L (by omega))
  have hstep : byeStep L H s =
      { byeSlots := (s.heatIdx, idx) :: s.byeSlots
        leftByes := s.leftByes + (if idx = 0 then 1 else 0)
        rightByes := s.rightByes + (if idx = L - 1 then 1 else 0)
        heatIdx := if s.heatIdx = 0 then H - 1 else s.heatIdx - 1
        byesPlaced := s.byesPlaced + 1 } := by
    unfold byeStep
    rw [hfl]
  rw [hstep]
  have hsucc := succ_mod_div t H hH
  refine ⟨?_, ?_, ?_, ?_, ?_, ?_⟩
  · exact congrArg (· + 1) inv.placed
  · exact congrArg (· + 1) inv.len
  · exact List.nodup_cons.2 ⟨hfree2, inv.nodup⟩
  · intro p hp
    rcases List.mem_cons.1 hp with hp2 | hp2
    · subst hp2
      exact ⟨hidxH, hidxL⟩
    · exact inv.inGrid p hp2
  · show (if s.heatIdx = 0 then H - 1 else s.heatIdx - 1) = H - 1 - (t + 1) % H
    by_cases hA : t % H = H - 1
    · have h1 := hsucc.1 hA
      rw [if_pos (by rw [inv.idx]; omega : s.heatIdx = 0), h1.1]
      omega
    · have h2 := hsucc.2 (by omega)
      rw [if_neg (by rw [inv.idx]; omega : ¬s.heatIdx = 0), h2.1, inv.idx]
      omega
  · intro h hh
    show byeCount ((s.heatIdx, idx) :: s.byeSlots) h =
      (t + 1) / H + (if H - (t + 1) % H ≤ h then 1 else 0)
    rw [byeCount_cons]
    rw [inv.cnt h hh]
    by_cases hA : t % H = H - 1
    · have h1 := hsucc.1 hA
      rw [h1.1, h1.2]
      have hidx0 : s.heatIdx = 0 := by rw [inv.idx]; omega
      rw [hidx0]
      split_ifs <;> omega
    · have h2 := hsucc.2 (by omega)
      rw [h2.1, h2.2]
      have hidxv : s.heatIdx = H - 1 - t % H := inv.idx
      split_ifs <;> omega

lemma byeLoop_inv (L H B : Nat) (hH : 1 ≤ H) (hB : B + 1 ≤ H * L) :
    ∀ (fuel t : Nat) (s : ByeState), ByeInv L H t s → t ≤ B → B - t ≤ fuel →
      ByeInv L H B (byeLoop L H B fuel s) := by
  intro fuel
  induction fuel with
  | zero =>
    intro t s inv ht hf
    have htB : t = B := by omega
    rw [byeLoop]
    exact htB ▸ inv
  | succ f ih =>
    intro t s inv ht hf
    rw [byeLoop]
    by_cases hlt : s.byesPlaced < B
    · rw [if_pos hlt]
      have htB : t < B := by
        rw [inv.placed] at hlt
        exact hlt
      have hdiv : t / H < L := by
        have h2 : t / H ≤ (H * L - 2) / H := Nat.div_le_div_right (by omega)
        have h3 : (H * L - 2) / H < L := by
          rw [Nat.div_lt_iff_lt_mul (by omega : 0 < H)]
          have h4 : 1 ≤ H * L := by omega
          calc H * L - 2 < H * L := by omega
          _ = L * H := Nat.mul_comm H L
        omega
      exact ih (t + 1) (byeStep L H s) (byeStep_inv L H t s hH hdiv inv)
        (by omega) (by omega)
    · rw [if_neg hlt]
      have htB : t = B := by
        rw [inv.placed] at hlt
        omega
      exact htB ▸ inv

lemma byeInit_inv (L H : Nat) (hH : 1 ≤ H) : ByeInv L H 0 (byeInit H) := by
  refine ⟨rfl, rfl, List.nodup_nil, ?_, ?_, ?_⟩
  · intro p hp
    simp [byeInit] at hp
  · show H - 1 = H - 1 - 0 % H
    rw [Nat.zero_mod]
    omega
  · intro h hh
    show byeCount [] h = 0 / H + (if H - 0 % H ≤ h then 1 else 0)
    rw [Nat.zero_mod, Nat.zero_div]
    rw [if_neg (by omega : ¬(H - 0 ≤ h))]
    rfl

/-- C10: for every valid input the BYE-placement loop terminates after
placing exactly `necessaryByes = numHeats * numLanes - n * hpr` distinct
in-grid (heat, lane) coordinates; this works because `necessaryByes` is
strictly less than `numHeats * numLanes`. -/
theorem c10_bye_placement (n L hpr H B : Nat) (hn : 1 ≤ n) (hL : 1 ≤ L) (hh : 1 ≤ hpr)
    (hHdef : H = max hpr ((n * hpr + L - 1) / L)) (hBdef : B = H * L - n * hpr) :
    (byeRun L H B).byesPlaced = B ∧ (byeRun L H B).byeSlots.length = B ∧
    (byeRun L H B).byeSlots.Nodup ∧
    (∀ p ∈ (byeRun L H B).byeSlots, p.1 < H ∧ p.2 < L) ∧ B < H * L := by
  have hH : 1 ≤ H := by
    rw [hHdef]
    exact le_trans hh (le_max_left _ _)
  have hTS : 1 ≤ n * hpr := Nat.one_le_iff_ne_zero.2 (Nat.mul_ne_zero (by omega) (by omega))
  have hHL : n * hpr ≤ H * L := by
    have h1 : n * hpr ≤ L * ((n * hpr) ⌈/⌉ L) := by
      have := le_smul_ceilDiv (show 0 < L by omega) (b := n * hpr)
      simpa [smul_eq_mul] using this
    have h2 : (n * hpr) ⌈/⌉ L ≤ H := by
      rw [Nat.ceilDiv_eq_add_pred_div, hHdef]
      exact le_max_right _ _
    calc n * hpr ≤ L * ((n * hpr) ⌈/⌉ L) := h1
    _ ≤ L * H := Nat.mul_le_mul_left L h2
    _ = H * L := Nat.mul_comm L H
  obtain ⟨Q, hQ⟩ : ∃ Q, H * L = Q := ⟨_, rfl⟩
  have hB1 : B + 1 ≤ H * L := by
    rw [hQ] at hHL ⊢
    omega
  have hfin := byeLoop_inv L H B hH hB1 (B * H + H) 0 (byeInit H)
    (byeInit_inv L H hH) (Nat.zero_le B) ?_
  · refine ⟨hfin.placed, hfin.len, hfin.nodup, hfin.inGrid, ?_⟩
    rw [hQ] at hHL ⊢
    omega
  · have : B ≤ B * H := Nat.le_mul_of_pos_right B (by omega)
    omega

/-- Witness for C10 at 5 racers, 4 lanes, 3 heats per racer
(`numHeats = 4`, `necessaryByes = 1`). -/
theorem c10_bye_placement_witness :
    (byeRun 4 4 1).byesPlaced = 1 ∧ (byeRun 4 4 1).byeSlots.length = 1 ∧
    (byeRun 4 4 1).byeSlots.Nodup ∧
    (∀ p ∈ (byeRun 4 4 1).byeSlots, p.1 < 4 ∧ p.2 < 4) ∧ 1 < 4 * 4 :=
  c10_bye_placement 5 4 3 4 1 (by decide) (by decide) (by decide) (by decide) (by decide)

/-- C5: `schedule` fails exactly on the four invalid-input conditions,
each with its own message and checked in source order (non-array racers,
empty racers, invalid lane count, invalid heats count); on every other
input it returns a full `numHeats × numLanes` grid without error. -/
theorem c5_validation {T : Type} (racers : Option (List T)) (opts : ScheduleOptions) :
    (racers = none → schedule racers opts = .error "racers must be an array") ∧
    (∀ rs, racers = some rs → rs = [] →
      schedule racers opts = .error "racers array cannot be empty") ∧
    (∀ rs, racers = some rs → rs ≠ [] → isPositiveInteger opts.numLanes = false →
      schedule racers opts = .error "numLanes must be a positive integer") ∧
    (∀ rs, racers = some rs → rs ≠ [] → isPositiveInteger opts.numLanes = true →
      isPositiveInteger opts.heatsPerRacer = false →
      schedule racers opts = .error "heatsPerRacer must be a positive integer") ∧
    (∀ rs, racers = some rs → rs ≠ [] → isPositiveInteger opts.numLanes = true →
      isPositiveInteger opts.heatsPerRacer = true →
      ∃ grid, schedule racers opts = .ok grid ∧
        grid.length = max opts.heatsPerRacer.num.toNat
          ((rs.length * opts.heatsPerRacer.num.toNat) ⌈/⌉ opts.numLanes.num.toNat) ∧
        ∀ row ∈ grid, row.length = opts.numLanes.num.toNat) := by
  refine ⟨?_, ?_, ?_, ?_, ?_⟩
  · intro h
    subst h
    rfl
  · intro rs hr he
    subst hr
    subst he
    rfl
  · intro rs hr he hL
    subst hr
    have hlen : ¬rs.length = 0 := fun h2 => he (List.length_eq_zero.1 h2)
    simp only [schedule, if_neg hlen, hL]
    rfl
  · intro rs hr he hL hh
    subst hr
    have hlen : ¬rs.length = 0 := fun h2 => he (List.length_eq_zero.1 h2)
    simp only [schedule, if_neg hlen, hL, hh]
    rfl
  · intro rs hr he hL hh
    subst hr
    have hlen : ¬rs.length = 0 := fun h2 => he (List.length_eq_zero.1 h2)
    refine ⟨(scheduleCore rs.length opts.numLanes.num.toNat opts.heatsPerRacer.num.toNat
      (priorityList ((opts.prioritize).getD (.arr [lanes, turnover, opponents])))).map
        (fun row => row.map (fun s => s.bind (fun i => rs.get? i))), ?_, ?_, ?_⟩
    · simp only [schedule, if_neg hlen, hL, hh]
      rfl
    · rw [List.length_map, Nat.ceilDiv_eq_add_pred_div]
      exact (scheduleCore_invariants rs.length opts.numLanes.num.toNat
        opts.heatsPerRacer.num.toNat _).1
    · intro row hrow
      rcases List.mem_map.1 hrow with ⟨row0, hrow0, hroweq⟩
      rw [← hroweq, List.length_map]
      exact (scheduleCore_invariants rs.length opts.numLanes.num.toNat
        opts.heatsPerRacer.num.toNat _).2.1 row0 hrow0

/-- Witness for C5: each of the four failure conditions and one success
at concrete inputs. -/
theorem c5_validation_witness :
    (schedule (T := Nat) none
      { numLanes := 4, heatsPerRacer := 3, prioritize := none } =
        .error "racers must be an array") ∧
    (schedule (T := Nat) (some [])
      { numLanes := 4, heatsPerRacer := 3, prioritize := none } =
        .error "racers array cannot be empty") ∧
    (schedule (T := Nat) (some [5])
      { numLanes := 0, heatsPerRacer := 3, prioritize := none } =
        .error "numLanes must be a positive integer") ∧
    (schedule (T := Nat) (some [5])
      { numLanes := 4, heatsPerRacer := 0, prioritize := none } =
        .error "heatsPerRacer must be a positive integer") ∧
    (∃ grid, schedule (T := Nat) (some [5, 6])
      { numLanes := 4, heatsPerRacer := 3, prioritize := none } = .ok grid ∧
        grid.length = max (3 : Rat).num.toNat
          ((([5, 6] : List Nat).length * (3 : Rat).num.toNat) ⌈/⌉ (4 : Rat).num.toNat) ∧
        ∀ row ∈ grid, row.length = (4 : Rat).num.toNat) :=
  ⟨(c5_validation (T := Nat) none _).1 rfl,
   (c5_validation (T := Nat) (some []) _).2.1 [] rfl rfl,
   (c5_validation (T := Nat) (some [5]) _).2.2.1 [5] rfl (by decide) (by decide),
   (c5_validation (T := Nat) (some [5]) _).2.2.2.1 [5] rfl (by decide) (by decide) (by decide),
   (c5_validation (T := Nat) (some [5, 6]) _).2.2.2.2 [5, 6] rfl (by decide) (by decide)
     (by decide)⟩

end Pinewood
